import Mathlib

/-!
Verification development for the ftrace proto translation table
(`src/ftrace_reader/proto_translation_table.cc`).

The C++ code is shallowly embedded: the collaborator functions
(`FtraceProcfs::ReadEventFormat`, `ParseFtraceEvent`,
`GetNameFromTypeAndName`, `SetTranslationStrategy`) are abstracted as a
record of pure functions, `uint16_t` arithmetic is `Nat` arithmetic with
an explicit `% 65536` at every point where the C++ converts an `int` to
`uint16_t`, and the mutable loops of `ProtoTranslationTable::Create` are
structural recursions threading the mutated state explicitly.
-/

namespace Perfetto

/-- One mapped datum within an event record (struct `Field`).
`ftrace_type`, `proto_field_type` and `strategy` are enumerations in the
C++ code; they are embedded as `Nat` because the table builder only
passes them through without inspecting them. -/
structure Field where
  ftrace_offset : Nat := 0
  ftrace_size : Nat := 0
  ftrace_type : Nat := 0
  proto_field_type : Nat := 0
  proto_field_id : Nat := 0
  ftrace_name : String := ""
  strategy : Nat := 0
  deriving DecidableEq, Repr

/-- One field of a parsed kernel format descriptor
(`FtraceEvent::Field` produced by the format parser). -/
structure FtraceEventField where
  type_and_name : String := ""
  offset : Nat := 0
  size : Nat := 0
  deriving DecidableEq, Repr

/-- A parsed kernel format descriptor (struct `FtraceEvent`). -/
structure FtraceEvent where
  name : String := ""
  id : Nat := 0
  fields : List FtraceEventField := []
  common_fields : List FtraceEventField := []
  deriving DecidableEq, Repr

/-- One trace-event type (struct `Event`).  A default-constructed
`Event` (all fields zero/empty) fills the unused slots of the dense
by-id vector. -/
structure Event where
  name : String := ""
  group : String := ""
  fields : List Field := []
  ftrace_event_id : Nat := 0
  proto_field_id : Nat := 0
  size : Nat := 0
  deriving DecidableEq, Repr

instance : Inhabited Event := ⟨{}⟩

/-- The external collaborators consumed by `ProtoTranslationTable::Create`:
reading an event's format text, parsing it, extracting a field name from
a C-like type-and-name token, and resolving a translation strategy for a
(kernel type, proto type) pair.  `parseFtraceEvent` returns `none` when
`ParseFtraceEvent` returns `false`; `setTranslationStrategy` returns
`none` when `SetTranslationStrategy` reports the pair unsupported. -/
structure Collaborators where
  readEventFormat : String → String → String
  parseFtraceEvent : String → Option FtraceEvent
  getNameFromTypeAndName : String → String
  setTranslationStrategy : Nat → Nat → Option Nat

/-- The inner `for (FtraceEvent::Field ftrace_field : ftrace_event.fields)`
loop: scan the kernel fields for the first one whose extracted name
equals the declared field's `ftrace_name`, and on that first match break,
returning the field updated with the kernel offset/size (stored into
`uint16_t` members, hence `% 65536`) together with the resolver's answer.
`none` means the scan fell off the end (`success` stayed `false`). -/
def scanFields (c : Collaborators) (f : Field) :
    List FtraceEventField → Option (Field × Option Nat)
  | [] => none
  | kf :: rest =>
    if c.getNameFromTypeAndName kf.type_and_name = f.ftrace_name then
      let f' : Field :=
        { f with ftrace_offset := kf.offset % 65536, ftrace_size := kf.size % 65536 }
      some (f', c.setTranslationStrategy f'.ftrace_type f'.proto_field_type)
    else scanFields c f rest

/-- The `while (field != event.fields.end())` loop of `Create`: erase the
declared fields that find no name match or whose type pair is
unsupported, and accumulate `fields_end` (a `uint16_t`, updated with
`std::max<uint16_t>(fields_end, offset + size)` — the update happens even
when the strategy resolution then fails).  Returns the surviving fields
and the final `fields_end`. -/
def resolveFields (c : Collaborators) (kfields : List FtraceEventField) :
    List Field → Nat → List Field × Nat
  | [], fe => ([], fe)
  | f :: rest, fe =>
    match scanFields c f kfields with
    | none => resolveFields c kfields rest fe
    | some (f', strat) =>
      let fe' := max fe ((f'.ftrace_offset + f'.ftrace_size) % 65536)
      match strat with
      | none => resolveFields c kfields rest fe'
      | some s =>
        let res := resolveFields c kfields rest fe'
        ({ f' with strategy := s } :: res.1, res.2)

/-- The body of the `for (Event& event : events)` loop of `Create` for a
single event, threading the `(common_fields, common_fields_end)` state.
An empty format text or a parse failure leaves the event untouched
(`continue`).  Otherwise the event's `ftrace_event_id`, surviving fields
and `size` are filled in, and — only while `common_fields` is still
empty — the descriptor's common fields are captured (through `uint16_t`
locals, hence `% 65536`). -/
def processEvent (c : Collaborators) (cf : List Field) (cfe : Nat) (e : Event) :
    Event × List Field × Nat :=
  let contents := c.readEventFormat e.group e.name
  if contents = "" then (e, cf, cfe)
  else
    match c.parseFtraceEvent contents with
    | none => (e, cf, cfe)
    | some fev =>
      let res := resolveFields c fev.fields e.fields 0
      let cfState :=
        if cf.isEmpty then
          (fev.common_fields.map (fun kf =>
             ({ ftrace_offset := kf.offset % 65536,
                ftrace_size := kf.size % 65536 } : Field)),
           fev.common_fields.foldl (fun acc kf =>
             max acc ((kf.offset % 65536 + kf.size % 65536) % 65536)) cfe)
        else (cf, cfe)
      ({ e with
           ftrace_event_id := fev.id,
           fields := res.1,
           size := max res.2 cfState.2 },
       cfState)

/-- The full `for (Event& event : events)` pass of `Create`. -/
def processEvents (c : Collaborators) :
    List Event → List Field → Nat → List Event × List Field × Nat
  | [], cf, cfe => ([], cf, cfe)
  | e :: rest, cf, cfe =>
    let r := processEvent c cf cfe e
    let rs := processEvents c rest r.2.1 r.2.2
    (r.1 :: rs.1, rs.2)

/-- The predicate of the `std::remove_if` post-pass: an event is removed
when `proto_field_id == 0 || ftrace_event_id == 0`. -/
def unusable (e : Event) : Bool :=
  e.proto_field_id == 0 || e.ftrace_event_id == 0

/-- The surviving events of `Create`: the processed events with the
unusable ones erased. -/
def CreateFiltered (c : Collaborators) (events : List Event) : List Event :=
  (processEvents c events [] 0).1.filter (fun e => !(unusable e))

/-- The `common_fields` vector accumulated by `Create`. -/
def CreateCommonFields (c : Collaborators) (events : List Event) : List Field :=
  (processEvents c events [] 0).2.1

/-- The `common_fields_end` accumulated by `Create`. -/
def CreateCommonExtent (c : Collaborators) (events : List Event) : Nat :=
  (processEvents c events [] 0).2.2

/-- The first loop of `BuildEventsVector`: the largest `ftrace_event_id`
among the given events (`0` when there are none). -/
def largestId (events : List Event) : Nat :=
  events.foldl (fun m e => max m e.ftrace_event_id) 0

/-- The helper `BuildEventsVector`: the dense by-id vector, sized one past the
largest `ftrace_event_id`, with every event written at the index equal to
its id and the remaining slots left default-constructed. -/
def BuildEventsVector (events : List Event) : List Event :=
  events.foldl (fun v e => v.set e.ftrace_event_id e)
    (List.replicate (largestId events + 1) ({} : Event))

/-- Insert into an association list, overwriting the value of an existing
key — the effect of `std::map::operator[]` followed by assignment, seen
through lookups. -/
def mapInsert (m : List (String × Nat)) (k : String) (v : Nat) :
    List (String × Nat) :=
  match m with
  | [] => [(k, v)]
  | (k', v') :: rest =>
    if k' = k then (k', v) :: rest else (k', v') :: mapInsert rest k v

/-- Lookup in the association list. -/
def mapLookup (m : List (String × Nat)) (k : String) : Option Nat :=
  match m with
  | [] => none
  | (k', v) :: rest => if k' = k then some v else mapLookup rest k

/-- The `name_to_event_` index built in the `ProtoTranslationTable`
constructor: `name_to_event_[event.name] = &events_.at(event.ftrace_event_id)`
for each surviving event in order.  The non-owning pointer into the dense
vector is represented by the slot index it points at, which is exactly
`event.ftrace_event_id`. -/
def buildNameMap (events : List Event) : List (String × Nat) :=
  events.foldl (fun m e => mapInsert m e.name e.ftrace_event_id) []

/-- The resulting read-only table: the dense by-id vector `events_`,
`largest_id_`, the common fields, and the name index (slot indices into
`events_`). -/
structure ProtoTranslationTable where
  events_ : List Event
  largest_id_ : Nat
  common_fields_ : List Field
  name_to_event_ : List (String × Nat)
  deriving DecidableEq, Repr

/-- The `ProtoTranslationTable` constructor applied to an already
filtered event list. -/
def mkTable (events : List Event) (common_fields : List Field) :
    ProtoTranslationTable :=
  let ev := BuildEventsVector events
  { events_ := ev
    largest_id_ := ev.length - 1
    common_fields_ := common_fields
    name_to_event_ := buildNameMap events }

/-- The factory `ProtoTranslationTable::Create`: run the per-event pass, erase the
unusable events, and build both indices. -/
def Create (c : Collaborators) (events : List Event) : ProtoTranslationTable :=
  mkTable (CreateFiltered c events) (CreateCommonFields c events)

/-- Modelled from the spec: the read accessor `lookupById` (declared in
`proto_translation_table.h`, which is not part of this excerpt) is
"bounds-checked against the dense array size, yields empty result for
out-of-range or default/unused slots" (§4.2).  A default/unused slot is
recognised by its zero `ftrace_event_id` (§3: an Event present in the
final table always has non-zero `kernelEventId`). -/
def lookupById (t : ProtoTranslationTable) (id : Nat) : Option Event :=
  match t.events_[id]? with
  | none => none
  | some e => if e.ftrace_event_id = 0 then none else some e

/-- Modelled from the spec: the read accessor `lookupByName` (declared in
`proto_translation_table.h`, which is not part of this excerpt) is a
"mapping lookup, empty result if absent" (§4.2) returning the entry of
the dense array that the stored reference points into. -/
def lookupByName (t : ProtoTranslationTable) (n : String) : Option Event :=
  match mapLookup t.name_to_event_ n with
  | none => none
  | some i => t.events_[i]?

/-- The extent claimed by the spec for `fieldsExtent`: the maximum of
`kernelOffset + kernelSize` over exactly the fields kept in an event's
final field list (`0` when none survive). -/
def keptFieldsExtent (e : Event) : Nat :=
  e.fields.foldl (fun a f => max a (f.ftrace_offset + f.ftrace_size)) 0

/-! ## Concrete instances used to exercise the theorems -/

/-- A kernel with one event `sched/alpha` (id 7) whose only field `f1`
sits at offset 10, size 4, and whose translation strategy is unsupported
for the type pair (0, 5); no common fields. -/
def cC1x : Collaborators :=
  { readEventFormat := fun g n =>
      if g = "sched" ∧ n = "alpha" then "fmt_alpha" else ""
    parseFtraceEvent := fun s =>
      if s = "fmt_alpha" then
        some { id := 7,
               fields := [{ type_and_name := "f1", offset := 10, size := 4 }],
               common_fields := [] }
      else none
    getNameFromTypeAndName := fun s => s
    setTranslationStrategy := fun _ _ => none }

/-- The catalog event matching `cC1x`: one declared field `f1`. -/
def eC1x : Event :=
  { name := "alpha", group := "sched", proto_field_id := 1,
    fields := [{ ftrace_name := "f1", proto_field_id := 2,
                 proto_field_type := 5 }] }

/-- A kernel with one event `sched/w` (id 9), field `f1` at offset 8,
size 4, every type pair supported. -/
def cC1w : Collaborators :=
  { readEventFormat := fun g n =>
      if g = "sched" ∧ n = "w" then "fmt_w" else ""
    parseFtraceEvent := fun s =>
      if s = "fmt_w" then
        some { id := 9,
               fields := [{ type_and_name := "f1", offset := 8, size := 4 }],
               common_fields := [] }
      else none
    getNameFromTypeAndName := fun s => s
    setTranslationStrategy := fun _ _ => some 1 }

/-- The catalog event matching `cC1w`. -/
def eC1w : Event :=
  { name := "w", group := "sched", proto_field_id := 1,
    fields := [{ ftrace_name := "f1", proto_field_id := 2,
                 proto_field_type := 3 }] }

/-- A kernel with two events: `sched/alpha` (id 7, one field at offset
10 size 4 whose type pair (0, 5) is unsupported, no common fields) and
`sched/beta` (id 3, no declared fields, one common field at offset 0
size 8). -/
def cDemo : Collaborators :=
  { readEventFormat := fun g n =>
      if g = "sched" ∧ n = "alpha" then "fmt_alpha"
      else if g = "sched" ∧ n = "beta" then "fmt_beta"
      else ""
    parseFtraceEvent := fun s =>
      if s = "fmt_alpha" then
        some { id := 7,
               fields := [{ type_and_name := "f1", offset := 10, size := 4 }],
               common_fields := [] }
      else if s = "fmt_beta" then
        some { id := 3, fields := [],
               common_fields := [{ type_and_name := "c0", offset := 0,
                                   size := 8 }] }
      else none
    getNameFromTypeAndName := fun s => s
    setTranslationStrategy := fun kt pt =>
      if kt = 0 ∧ pt = 5 then none else some 1 }

/-- Catalog event `sched/alpha` for `cDemo`. -/
def eDemoA : Event :=
  { name := "alpha", group := "sched", proto_field_id := 1,
    fields := [{ ftrace_name := "f1", proto_field_id := 2,
                 proto_field_type := 5 }] }

/-- Catalog event `sched/beta` for `cDemo`. -/
def eDemoB : Event :=
  { name := "beta", group := "sched", proto_field_id := 2 }

/-- Catalog event `sched/gamma` for `cDemo`: unknown to the kernel
(`readEventFormat` returns the empty string for it). -/
def eDemoC : Event :=
  { name := "gamma", group := "sched", proto_field_id := 3 }

/-- The surviving form of `eDemoA` in `Create cDemo [eDemoA, eDemoB]`. -/
def eDemoARes : Event :=
  { name := "alpha", group := "sched", fields := [], ftrace_event_id := 7,
    proto_field_id := 1, size := 14 }

/-- The surviving form of `eDemoB` in `Create cDemo [eDemoA, eDemoB]`. -/
def eDemoBRes : Event :=
  { name := "beta", group := "sched", fields := [], ftrace_event_id := 3,
    proto_field_id := 2, size := 8 }

/-- A kernel where the same catalog name `dup` resolves to two distinct
kernel events: id 3 under group `g1` and id 7 under group `g2`. -/
def cC2x : Collaborators :=
  { readEventFormat := fun g n =>
      if g = "g1" ∧ n = "dup" then "t1"
      else if g = "g2" ∧ n = "dup" then "t2"
      else ""
    parseFtraceEvent := fun s =>
      if s = "t1" then some { id := 3 }
      else if s = "t2" then some { id := 7 }
      else none
    getNameFromTypeAndName := fun s => s
    setTranslationStrategy := fun _ _ => some 1 }

/-- First catalog event named `dup` (group `g1`). -/
def eC2xa : Event := { name := "dup", group := "g1", proto_field_id := 1 }

/-- Second catalog event named `dup` (group `g2`). -/
def eC2xb : Event := { name := "dup", group := "g2", proto_field_id := 2 }

/-- A kernel with one event `sched/five` (id 11) with a single field
`present` at offset 4 size 2, and no supported type pair at all. -/
def cC5 : Collaborators :=
  { readEventFormat := fun g n =>
      if g = "sched" ∧ n = "five" then "t5" else ""
    parseFtraceEvent := fun s =>
      if s = "t5" then
        some { id := 11,
               fields := [{ type_and_name := "present", offset := 4,
                            size := 2 }] }
      else none
    getNameFromTypeAndName := fun s => s
    setTranslationStrategy := fun _ _ => none }

/-- A catalog event declaring two fields, one absent from the kernel and
one present but with an unsupported conversion — so zero fields survive. -/
def eC5 : Event :=
  { name := "five", group := "sched", proto_field_id := 4,
    fields := [{ ftrace_name := "absent", proto_field_id := 1,
                 proto_field_type := 1 },
               { ftrace_name := "present", proto_field_id := 2,
                 proto_field_type := 2 }] }

/-- The descriptor `cC5` reports for `sched/five`. -/
def fevC5 : FtraceEvent :=
  { id := 11,
    fields := [{ type_and_name := "present", offset := 4, size := 2 }] }

/-- A kernel where two distinct catalog events `grp/x` and `grp/y` both
resolve to the same kernel event id 5. -/
def cC10 : Collaborators :=
  { readEventFormat := fun g n =>
      if g = "grp" ∧ n = "x" then "tx"
      else if g = "grp" ∧ n = "y" then "ty"
      else ""
    parseFtraceEvent := fun s =>
      if s = "tx" then some { id := 5 }
      else if s = "ty" then some { id := 5 }
      else none
    getNameFromTypeAndName := fun s => s
    setTranslationStrategy := fun _ _ => some 1 }

/-- Catalog event `grp/x`. -/
def eC10x : Event := { name := "x", group := "grp", proto_field_id := 1 }

/-- Catalog event `grp/y`. -/
def eC10y : Event := { name := "y", group := "grp", proto_field_id := 2 }

/-- The surviving form of `eC10x` in `Create cC10 [eC10x, eC10y]`. -/
def eC10xRes : Event :=
  { name := "x", group := "grp", fields := [], ftrace_event_id := 5,
    proto_field_id := 1, size := 0 }

/-- The surviving form of `eC10y` in `Create cC10 [eC10x, eC10y]`. -/
def eC10yRes : Event :=
  { name := "y", group := "grp", fields := [], ftrace_event_id := 5,
    proto_field_id := 2, size := 0 }

/-! ## Basic lemmas about the dense by-id vector -/

theorem foldl_set_length (l init : List Event) :
    (l.foldl (fun v e => v.set e.ftrace_event_id e) init).length = init.length := by
  induction l generalizing init with
  | nil => rfl
  | cons e rest ih =>
    rw [List.foldl_cons, ih, List.length_set]

theorem foldl_set_getElem (l : List Event) (init : List Event) (i : Nat)
    (hall : ∀ e ∈ l, e.ftrace_event_id < init.length) :
    (l.foldl (fun v e => v.set e.ftrace_event_id e) init)[i]? =
      match l.reverse.find? (fun e => e.ftrace_event_id == i) with
      | some e => some e
      | none => init[i]? := by
  induction l generalizing init with
  | nil => rfl
  | cons e rest ih =>
    have hlen : e.ftrace_event_id < init.length := hall e (by simp)
    have hrest : ∀ x ∈ rest,
        x.ftrace_event_id < (init.set e.ftrace_event_id e).length := by
      intro x hx
      rw [List.length_set]
      exact hall x (List.mem_cons_of_mem _ hx)
    rw [List.foldl_cons, ih _ hrest, List.reverse_cons, List.find?_append]
    cases hfind : rest.reverse.find? (fun x => x.ftrace_event_id == i) with
    | some e' => simp
    | none =>
      simp only [Option.none_or]
      rw [List.getElem?_set]
      by_cases hei : e.ftrace_event_id = i
      · have hb : (e.ftrace_event_id == i) = true := beq_iff_eq.mpr hei
        simp [List.find?, hb, hei, hei ▸ hlen]
      · have hb : (e.ftrace_event_id == i) = false := beq_eq_false_iff_ne.mpr hei
        simp [List.find?, hb, hei]

theorem le_foldl_max (l : List Event) (a : Nat) :
    a ≤ l.foldl (fun m e => max m e.ftrace_event_id) a := by
  induction l generalizing a with
  | nil => exact Nat.le_refl a
  | cons e rest ih =>
    rw [List.foldl_cons]
    exact Nat.le_trans (Nat.le_max_left a e.ftrace_event_id) (ih _)

theorem mem_le_foldl_max (l : List Event) (e : Event) (he : e ∈ l) (a : Nat) :
    e.ftrace_event_id ≤ l.foldl (fun m x => max m x.ftrace_event_id) a := by
  induction l generalizing a with
  | nil => exact absurd he (List.not_mem_nil e)
  | cons f rest ih =>
    rw [List.foldl_cons]
    rcases List.mem_cons.mp he with h | h
    · exact Nat.le_trans (h ▸ Nat.le_max_right a f.ftrace_event_id)
        (le_foldl_max rest _)
    · exact ih h _

theorem mem_le_largestId (l : List Event) (e : Event) (he : e ∈ l) :
    e.ftrace_event_id ≤ largestId l :=
  mem_le_foldl_max l e he 0

theorem BuildEventsVector_length (l : List Event) :
    (BuildEventsVector l).length = largestId l + 1 := by
  unfold BuildEventsVector
  rw [foldl_set_length, List.length_replicate]

theorem BuildEventsVector_getElem (l : List Event) (i : Nat) :
    (BuildEventsVector l)[i]? =
      match l.reverse.find? (fun e => e.ftrace_event_id == i) with
      | some e => some e
      | none => if i < largestId l + 1 then some ({} : Event) else none := by
  unfold BuildEventsVector
  rw [foldl_set_getElem]
  · cases hfind : l.reverse.find? (fun e => e.ftrace_event_id == i) with
    | some e => rfl
    | none => simp [List.getElem?_replicate]
  · intro e he
    rw [List.length_replicate]
    exact Nat.lt_succ_of_le (mem_le_largestId l e he)

/-! ## Basic lemmas about the name index -/

theorem mapLookup_mapInsert (m : List (String × Nat)) (k k' : String) (v : Nat) :
    mapLookup (mapInsert m k v) k' = if k' = k then some v else mapLookup m k' := by
  induction m with
  | nil =>
    by_cases h : k' = k
    · simp [mapInsert, mapLookup, h]
    · simp [mapInsert, mapLookup, h, Ne.symm h]
  | cons p rest ih =>
    obtain ⟨pk, pv⟩ := p
    by_cases hpk : pk = k
    · subst hpk
      by_cases h : k' = pk
      · simp [mapInsert, mapLookup, h]
      · simp [mapInsert, mapLookup, h, Ne.symm h]
    · by_cases h : k' = pk
      · subst h
        simp [mapInsert, mapLookup, hpk, Ne.symm hpk]
      · simp [mapInsert, mapLookup, hpk, h, Ne.symm h, ih]

theorem foldl_mapInsert_lookup (l : List Event) (m₀ : List (String × Nat))
    (n : String) :
    mapLookup (l.foldl (fun m e => mapInsert m e.name e.ftrace_event_id) m₀) n =
      match l.reverse.find? (fun e => e.name == n) with
      | some e => some e.ftrace_event_id
      | none => mapLookup m₀ n := by
  induction l generalizing m₀ with
  | nil => rfl
  | cons e rest ih =>
    rw [List.foldl_cons, ih, List.reverse_cons, List.find?_append]
    cases hfind : rest.reverse.find? (fun x => x.name == n) with
    | some e' => simp
    | none =>
      simp only [Option.none_or]
      rw [mapLookup_mapInsert]
      by_cases hn : e.name = n
      · have hb : (e.name == n) = true := beq_iff_eq.mpr hn
        simp [List.find?, hb, hn]
      · have hb : (e.name == n) = false := beq_eq_false_iff_ne.mpr hn
        simp [List.find?, hb, hn, Ne.symm hn]

theorem buildNameMap_lookup (l : List Event) (n : String) :
    mapLookup (buildNameMap l) n =
      match l.reverse.find? (fun e => e.name == n) with
      | some e => some e.ftrace_event_id
      | none => none := by
  unfold buildNameMap
  rw [foldl_mapInsert_lookup]
  rfl

/-! ## Field resolution: declarative characterizations -/

/-- The name-match predicate of the inner scan: the kernel field whose
extracted name is exactly string-equal to the declared field's
`ftrace_name`. -/
def nameMatches (c : Collaborators) (f : Field) (kf : FtraceEventField) : Bool :=
  c.getNameFromTypeAndName kf.type_and_name == f.ftrace_name

/-- Declarative description of the surviving field list, following the
spec's words (§4.1 step 4): for each declared field take the first
kernel field with the same name, copy its offset and size, and keep the
field exactly when the strategy resolver supports the type pair. -/
def specResolvedFields (c : Collaborators) (kfields : List FtraceEventField)
    (fs : List Field) : List Field :=
  fs.filterMap (fun f =>
    match kfields.find? (nameMatches c f) with
    | none => none
    | some kf =>
      match c.setTranslationStrategy f.ftrace_type f.proto_field_type with
      | none => none
      | some s =>
        some { f with ftrace_offset := kf.offset % 65536,
                      ftrace_size := kf.size % 65536,
                      strategy := s })

/-- The `fields_end` accumulator in closed form: the running maximum of
the (wrapped) `offset + size` of every declared field that finds a name
match — whether or not the strategy resolution then succeeds. -/
def matchedExtent (c : Collaborators) (kfields : List FtraceEventField)
    (fs : List Field) (init : Nat) : Nat :=
  fs.foldl (fun acc f =>
    match kfields.find? (nameMatches c f) with
    | none => acc
    | some kf => max acc ((kf.offset % 65536 + kf.size % 65536) % 65536)) init

theorem scanFields_eq_find (c : Collaborators) (f : Field)
    (kfields : List FtraceEventField) :
    scanFields c f kfields =
      (kfields.find? (nameMatches c f)).map (fun kf =>
        ({ f with ftrace_offset := kf.offset % 65536,
                  ftrace_size := kf.size % 65536 },
         c.setTranslationStrategy f.ftrace_type f.proto_field_type)) := by
  induction kfields with
  | nil => rfl
  | cons kf rest ih =>
    by_cases h : c.getNameFromTypeAndName kf.type_and_name = f.ftrace_name
    · have hb : nameMatches c f kf = true := beq_iff_eq.mpr h
      simp [scanFields, List.find?, h, hb]
    · have hb : nameMatches c f kf = false := beq_eq_false_iff_ne.mpr h
      simp [scanFields, List.find?, h, hb, ih]

theorem resolveFields_fst (c : Collaborators) (kfields : List FtraceEventField)
    (fs : List Field) (fe : Nat) :
    (resolveFields c kfields fs fe).1 = specResolvedFields c kfields fs := by
  induction fs generalizing fe with
  | nil => rfl
  | cons f rest ih =>
    rw [resolveFields, scanFields_eq_find]
    cases hfind : kfields.find? (nameMatches c f) with
    | none => simp [specResolvedFields, List.filterMap_cons, hfind, ih]
    | some kf =>
      cases hstrat : c.setTranslationStrategy f.ftrace_type f.proto_field_type with
      | none => simp [specResolvedFields, List.filterMap_cons, hfind, hstrat, ih]
      | some s => simp [specResolvedFields, List.filterMap_cons, hfind, hstrat, ih]

theorem resolveFields_snd (c : Collaborators) (kfields : List FtraceEventField)
    (fs : List Field) (fe : Nat) :
    (resolveFields c kfields fs fe).2 = matchedExtent c kfields fs fe := by
  induction fs generalizing fe with
  | nil => rfl
  | cons f rest ih =>
    rw [resolveFields, scanFields_eq_find]
    cases hfind : kfields.find? (nameMatches c f) with
    | none => simp [matchedExtent, hfind, ih]
    | some kf =>
      cases hstrat : c.setTranslationStrategy f.ftrace_type f.proto_field_type with
      | none => simp [matchedExtent, hfind, hstrat, ih]
      | some s => simp [matchedExtent, hfind, hstrat, ih]

theorem le_resolveFields_snd (c : Collaborators) (kfields : List FtraceEventField)
    (fs : List Field) (fe : Nat) :
    fe ≤ (resolveFields c kfields fs fe).2 := by
  induction fs generalizing fe with
  | nil => exact Nat.le_refl fe
  | cons f rest ih =>
    rw [resolveFields]
    cases hscan : scanFields c f kfields with
    | none => exact ih fe
    | some r =>
      obtain ⟨f', strat⟩ := r
      cases strat with
      | none =>
        exact Nat.le_trans
          (Nat.le_max_left fe ((f'.ftrace_offset + f'.ftrace_size) % 65536)) (ih _)
      | some s =>
        exact Nat.le_trans
          (Nat.le_max_left fe ((f'.ftrace_offset + f'.ftrace_size) % 65536)) (ih _)

theorem resolveFields_mem_bound (c : Collaborators)
    (kfields : List FtraceEventField) (fs : List Field) (fe : Nat)
    (hwrap : ∀ kf ∈ kfields, kf.offset + kf.size < 65536) :
    ∀ f ∈ (resolveFields c kfields fs fe).1,
      f.ftrace_offset + f.ftrace_size ≤ (resolveFields c kfields fs fe).2 := by
  induction fs generalizing fe with
  | nil => intro f hf; exact absurd hf (List.not_mem_nil f)
  | cons f rest ih =>
    intro g hg
    rw [resolveFields, scanFields_eq_find] at hg ⊢
    cases hfind : kfields.find? (nameMatches c f) with
    | none =>
      rw [hfind] at hg
      simp only [Option.map_none'] at hg ⊢
      exact ih fe g hg
    | some kf =>
      have hkf : kf ∈ kfields := List.mem_of_find?_eq_some hfind
      have hlt : kf.offset + kf.size < 65536 := hwrap kf hkf
      have hoff : kf.offset % 65536 = kf.offset :=
        Nat.mod_eq_of_lt (Nat.lt_of_le_of_lt (Nat.le_add_right _ _) hlt)
      have hsz : kf.size % 65536 = kf.size :=
        Nat.mod_eq_of_lt (Nat.lt_of_le_of_lt (Nat.le_add_left _ _) hlt)
      rw [hfind] at hg
      cases hstrat : c.setTranslationStrategy f.ftrace_type f.proto_field_type with
      | none =>
        simp only [Option.map_some', hstrat] at hg ⊢
        exact ih _ g hg
      | some s =>
        simp only [Option.map_some', hstrat, List.mem_cons] at hg ⊢
        rcases hg with hg | hg
        · subst hg
          have hstep : kf.offset + kf.size ≤
              max fe ((kf.offset % 65536 + kf.size % 65536) % 65536) := by
            rw [hoff, hsz, Nat.mod_eq_of_lt hlt]
            exact le_max_right _ _
          simp only [hoff, hsz] at hstep ⊢
          exact Nat.le_trans hstep (le_resolveFields_snd c kfields rest _)
        · exact ih _ g hg

/-! ## The per-event pass: state threading -/

/-- The combined `offset + size` extent of a list of common fields,
accumulated the way `common_fields_end` is. -/
def commonExtentOf (cfs : List Field) : Nat :=
  cfs.foldl (fun acc f => max acc ((f.ftrace_offset + f.ftrace_size) % 65536)) 0

/-- Declarative description of the captured common fields: those of the
first catalog event whose format text is non-empty, parses, and reports a
non-empty common-field list. -/
def specCommonFields (c : Collaborators) : List Event → List Field
  | [] => []
  | e :: rest =>
    if c.readEventFormat e.group e.name = "" then specCommonFields c rest
    else
      match c.parseFtraceEvent (c.readEventFormat e.group e.name) with
      | none => specCommonFields c rest
      | some fev =>
        if fev.common_fields.isEmpty then specCommonFields c rest
        else fev.common_fields.map (fun kf =>
          ({ ftrace_offset := kf.offset % 65536,
             ftrace_size := kf.size % 65536 } : Field))

theorem processEvent_skip (c : Collaborators) (cf : List Field) (cfe : Nat)
    (e : Event)
    (h : c.readEventFormat e.group e.name = "" ∨
      c.parseFtraceEvent (c.readEventFormat e.group e.name) = none) :
    processEvent c cf cfe e = (e, cf, cfe) := by
  rcases h with h | h
  · simp [processEvent, h]
  · by_cases hc : c.readEventFormat e.group e.name = ""
    · simp [processEvent, hc]
    · simp [processEvent, hc, h]

theorem processEvent_state_stable (c : Collaborators) (cf : List Field)
    (cfe : Nat) (e : Event) (hcf : cf ≠ []) :
    (processEvent c cf cfe e).2 = (cf, cfe) := by
  by_cases hc : c.readEventFormat e.group e.name = ""
  · simp [processEvent, hc]
  · cases hp : c.parseFtraceEvent (c.readEventFormat e.group e.name) with
    | none => simp [processEvent, hc, hp]
    | some fev =>
      have : cf.isEmpty = false := by
        cases cf with
        | nil => exact absurd rfl hcf
        | cons a l => rfl
      simp [processEvent, hc, hp, this]

theorem processEvents_state_stable (c : Collaborators) (l : List Event)
    (cf : List Field) (cfe : Nat) (hcf : cf ≠ []) :
    (processEvents c l cf cfe).2 = (cf, cfe) := by
  induction l with
  | nil => rfl
  | cons e rest ih =>
    rw [processEvents]
    rw [processEvent_state_stable c cf cfe e hcf]
    exact ih

theorem processEvents_append (c : Collaborators) (l₁ l₂ : List Event)
    (cf : List Field) (cfe : Nat) :
    processEvents c (l₁ ++ l₂) cf cfe =
      ((processEvents c l₁ cf cfe).1 ++
         (processEvents c l₂ (processEvents c l₁ cf cfe).2.1
            (processEvents c l₁ cf cfe).2.2).1,
       (processEvents c l₂ (processEvents c l₁ cf cfe).2.1
          (processEvents c l₁ cf cfe).2.2).2) := by
  induction l₁ generalizing cf cfe with
  | nil => rfl
  | cons e rest ih =>
    rw [List.cons_append, processEvents, processEvents, ih]
    rfl

theorem processEvents_common (c : Collaborators) (l : List Event) :
    (processEvents c l [] 0).2.1 = specCommonFields c l ∧
      (processEvents c l [] 0).2.2 = commonExtentOf (specCommonFields c l) := by
  induction l with
  | nil => exact ⟨rfl, rfl⟩
  | cons e rest ih =>
    by_cases hc : c.readEventFormat e.group e.name = ""
    · rw [processEvents, processEvent_skip c [] 0 e (Or.inl hc)]
      simpa [specCommonFields, hc] using ih
    · cases hp : c.parseFtraceEvent (c.readEventFormat e.group e.name) with
      | none =>
        rw [processEvents, processEvent_skip c [] 0 e (Or.inr hp)]
        simpa [specCommonFields, hc, hp] using ih
      | some fev =>
        cases hcm : fev.common_fields with
        | nil =>
          rw [processEvents]
          have hpe : (processEvent c [] 0 e).2 = ([], 0) := by
            simp [processEvent, hc, hp, hcm]
          rw [hpe]
          have hempty : fev.common_fields.isEmpty = true := by
            rw [hcm]; rfl
          simpa [specCommonFields, hc, hp, hempty] using ih
        | cons kf0 krest =>
          rw [processEvents]
          have hpe : (processEvent c [] 0 e).2 =
              (fev.common_fields.map (fun kf =>
                 ({ ftrace_offset := kf.offset % 65536,
                    ftrace_size := kf.size % 65536 } : Field)),
               fev.common_fields.foldl (fun acc kf =>
                 max acc ((kf.offset % 65536 + kf.size % 65536) % 65536)) 0) := by
            simp [processEvent, hc, hp]
          rw [hpe]
          have hne : fev.common_fields.map (fun kf =>
              ({ ftrace_offset := kf.offset % 65536,
                 ftrace_size := kf.size % 65536 } : Field)) ≠ [] := by
            rw [hcm]; simp
          rw [processEvents_state_stable c rest _ _ hne]
          have hempty : fev.common_fields.isEmpty = false := by
            rw [hcm]; rfl
          have hspec : specCommonFields c (e :: rest) =
              fev.common_fields.map (fun kf =>
                ({ ftrace_offset := kf.offset % 65536,
                   ftrace_size := kf.size % 65536 } : Field)) := by
            simp [specCommonFields, hc, hp, hempty]
          constructor
          · exact hspec.symm
          · rw [hspec]
            unfold commonExtentOf
            rw [List.foldl_map]

/-! ## Table-level lemmas -/

theorem mem_CreateFiltered_ne_zero (c : Collaborators) (events : List Event)
    (e : Event) (he : e ∈ CreateFiltered c events) :
    e.proto_field_id ≠ 0 ∧ e.ftrace_event_id ≠ 0 := by
  unfold CreateFiltered at he
  have h := (List.mem_filter.mp he).2
  simpa [unusable] using h

theorem Create_events_eq (c : Collaborators) (events : List Event) :
    (Create c events).events_ = BuildEventsVector (CreateFiltered c events) := rfl

theorem Create_nameMap_eq (c : Collaborators) (events : List Event) :
    (Create c events).name_to_event_ = buildNameMap (CreateFiltered c events) := rfl

theorem lookupById_some (c : Collaborators) (events : List Event) (i : Nat)
    (e : Event) (h : lookupById (Create c events) i = some e) :
    e ∈ CreateFiltered c events ∧ e.ftrace_event_id = i ∧
      (CreateFiltered c events).reverse.find?
        (fun x => x.ftrace_event_id == i) = some e ∧
      (Create c events).events_[i]? = some e := by
  unfold lookupById at h
  rw [Create_events_eq, BuildEventsVector_getElem] at h
  cases hfind : (CreateFiltered c events).reverse.find?
      (fun x => x.ftrace_event_id == i) with
  | none =>
    rw [hfind] at h
    by_cases hi : i < largestId (CreateFiltered c events) + 1 <;> simp [hi] at h
  | some e' =>
    rw [hfind] at h
    by_cases hz : e'.ftrace_event_id = 0
    · simp [hz] at h
    · simp [hz] at h
      subst h
      have hid : e'.ftrace_event_id = i := by
        simpa using List.find?_some hfind
      have hmem : e' ∈ CreateFiltered c events :=
        List.mem_reverse.mp (List.mem_of_find?_eq_some hfind)
      exact ⟨hmem, hid, rfl,
        by rw [Create_events_eq, BuildEventsVector_getElem, hfind]⟩

theorem lookupById_unused (c : Collaborators) (events : List Event) (i : Nat)
    (hall : ∀ ev ∈ CreateFiltered c events, ev.ftrace_event_id ≠ i) :
    (Create c events).events_[i]? =
      if i < largestId (CreateFiltered c events) + 1
      then some ({} : Event) else none := by
  rw [Create_events_eq, BuildEventsVector_getElem]
  have hfind : (CreateFiltered c events).reverse.find?
      (fun x => x.ftrace_event_id == i) = none := by
    rw [List.find?_eq_none]
    intro x hx
    have := hall x (List.mem_reverse.mp hx)
    simpa using this
  rw [hfind]

theorem mapLookup_buildNameMap_some (l : List Event) (n : String) (i : Nat)
    (h : mapLookup (buildNameMap l) n = some i) :
    ∃ ev, ev ∈ l ∧ ev.name = n ∧ ev.ftrace_event_id = i := by
  rw [buildNameMap_lookup] at h
  cases hfind : l.reverse.find? (fun e => e.name == n) with
  | none =>
    rw [hfind] at h
    exact absurd h (by simp)
  | some ev =>
    rw [hfind] at h
    refine ⟨ev, List.mem_reverse.mp (List.mem_of_find?_eq_some hfind),
      by simpa using List.find?_some hfind, ?_⟩
    simpa using h

theorem slot_of_mem_id (c : Collaborators) (events : List Event) (i : Nat)
    (ev : Event) (hev : ev ∈ CreateFiltered c events)
    (hid : ev.ftrace_event_id = i) :
    ∃ e', (Create c events).events_[i]? = some e' ∧
      e' ∈ CreateFiltered c events ∧ e'.ftrace_event_id = i ∧
      (CreateFiltered c events).reverse.find?
        (fun x => x.ftrace_event_id == i) = some e' := by
  rw [Create_events_eq, BuildEventsVector_getElem]
  cases hfind : (CreateFiltered c events).reverse.find?
      (fun x => x.ftrace_event_id == i) with
  | none =>
    exfalso
    rw [List.find?_eq_none] at hfind
    exact hfind ev (List.mem_reverse.mpr hev) (by simpa using hid)
  | some e' =>
    exact ⟨e', rfl, List.mem_reverse.mp (List.mem_of_find?_eq_some hfind),
      by simpa using List.find?_some hfind, rfl⟩

theorem lookupByName_some (c : Collaborators) (events : List Event)
    (n : String) (e : Event) (h : lookupByName (Create c events) n = some e) :
    e ∈ CreateFiltered c events ∧ e.ftrace_event_id ≠ 0 ∧
      mapLookup (Create c events).name_to_event_ n = some e.ftrace_event_id ∧
      (Create c events).events_[e.ftrace_event_id]? = some e := by
  unfold lookupByName at h
  cases hm : mapLookup (Create c events).name_to_event_ n with
  | none =>
    rw [hm] at h
    exact absurd h (by simp)
  | some i =>
    rw [hm] at h
    simp only [] at h
    rw [Create_nameMap_eq] at hm
    obtain ⟨ev, hmem, hname, hid⟩ := mapLookup_buildNameMap_some _ n i hm
    obtain ⟨e', hslot, hmem', hid', _⟩ := slot_of_mem_id c events i ev hmem hid
    rw [hslot] at h
    have hee : e' = e := by simpa using h
    subst hee
    exact ⟨hmem', (mem_CreateFiltered_ne_zero c events e' hmem').2, by rw [hid'],
      by rw [hid']; exact hslot⟩

/-! ## Helper invariants for the claims -/

theorem processed_field_bound (c : Collaborators)
    (hwrap : ∀ s fev, c.parseFtraceEvent s = some fev →
      ∀ kf ∈ fev.fields, kf.offset + kf.size < 65536) :
    ∀ (es : List Event) (cf : List Field) (cfe : Nat),
      (∀ e ∈ es, e.ftrace_event_id = 0) →
      ∀ e' ∈ (processEvents c es cf cfe).1, e'.ftrace_event_id ≠ 0 →
      ∀ f ∈ e'.fields, f.ftrace_offset + f.ftrace_size ≤ e'.size := by
  intro es
  induction es with
  | nil =>
    intro cf cfe _ e' he'
    exact absurd he' (List.not_mem_nil e')
  | cons e rest ih =>
    intro cf cfe hpre e' he' hne f hf
    rw [processEvents] at he'
    rcases List.mem_cons.mp he' with he' | he'
    · subst he'
      by_cases hc : c.readEventFormat e.group e.name = ""
      · rw [processEvent_skip c cf cfe e (Or.inl hc)] at hne
        exact absurd (hpre e (by simp)) hne
      · cases hp : c.parseFtraceEvent (c.readEventFormat e.group e.name) with
        | none =>
          rw [processEvent_skip c cf cfe e (Or.inr hp)] at hne
          exact absurd (hpre e (by simp)) hne
        | some fev =>
          simp only [processEvent, if_neg hc, hp] at hf ⊢
          exact Nat.le_trans
            (resolveFields_mem_bound c fev.fields e.fields 0
              (hwrap _ fev hp) f hf)
            (le_max_left _ _)
    · exact ih _ _ (fun x hx => hpre x (List.mem_cons_of_mem _ hx)) e' he' hne f hf

theorem pairwise_name_inj (l : List Event)
    (hpw : l.Pairwise (fun a b => a.name ≠ b.name)) :
    ∀ a ∈ l, ∀ b ∈ l, a.name = b.name → a = b := by
  induction l with
  | nil =>
    intro a ha
    exact absurd ha (List.not_mem_nil a)
  | cons x xs ih =>
    intro a ha b hb hn
    have hx := List.pairwise_cons.mp hpw
    rcases List.mem_cons.mp ha with ha | ha <;>
      rcases List.mem_cons.mp hb with hb | hb
    · rw [ha, hb]
    · exact absurd (ha ▸ hn) (hx.1 b hb)
    · exact absurd (hb ▸ hn.symm) (hx.1 a ha)
    · exact ih hx.2 a ha b hb hn

/-! ## The claims -/

/-- Claim C1, as stated, is false on the code: a field that matches a
kernel field by name but is then dropped for an unsupported conversion
still contributes its `offset + size` to `fields_end`.  Concretely, for
kernel `cC1x` (one field at offset 10 size 4 whose strategy is
unsupported, no common fields) the surviving event keeps zero fields yet
has stored size 14, whereas the claim predicts
`max(commonExtent, keptFieldsExtent) = max 0 0 = 0`. -/
theorem c1_counterexample :
    (lookupById (Create cC1x [eC1x]) 7).map Event.fields = some [] ∧
    (lookupById (Create cC1x [eC1x]) 7).map Event.size = some 14 ∧
    (Create cC1x [eC1x]).common_fields_ = [] ∧
    (lookupById (Create cC1x [eC1x]) 7).map Event.size ≠
      (lookupById (Create cC1x [eC1x]) 7).map (fun e =>
        max (commonExtentOf (Create cC1x [eC1x]).common_fields_)
          (keptFieldsExtent e)) := by
  decide

/-- Claim C1 amended: the stored event size is
`max(fieldsExtent, commonExtent-at-processing-time)` where `fieldsExtent`
(`matchedExtent`) ranges over all declared fields that found a kernel
name match — including those subsequently dropped for an unsupported
conversion; only no-match drops contribute nothing.  Consequently (given
kernel extents below the `uint16_t` wrap) every surviving field satisfies
`kernelOffset + kernelSize ≤ event.size`. -/
theorem c1_amended (c : Collaborators) (events : List Event)
    (hpre : ∀ e ∈ events, e.ftrace_event_id = 0)
    (hwrap : ∀ s fev, c.parseFtraceEvent s = some fev →
      ∀ kf ∈ fev.fields, kf.offset + kf.size < 65536) :
    (∀ e ∈ CreateFiltered c events, ∀ f ∈ e.fields,
        f.ftrace_offset + f.ftrace_size ≤ e.size) ∧
    (∀ kfields fs fe,
        (resolveFields c kfields fs fe).2 = matchedExtent c kfields fs fe) ∧
    (∀ cf cfe e fev,
        c.readEventFormat e.group e.name ≠ "" →
        c.parseFtraceEvent (c.readEventFormat e.group e.name) = some fev →
        (processEvent c cf cfe e).1.size =
          max (matchedExtent c fev.fields e.fields 0)
            (processEvent c cf cfe e).2.2) := by
  refine ⟨?_, ?_, ?_⟩
  · intro e he f hf
    unfold CreateFiltered at he
    have h1 := List.mem_filter.mp he
    have hne : e.ftrace_event_id ≠ 0 := by
      have := h1.2
      simp [unusable] at this
      exact this.2
    exact processed_field_bound c hwrap events [] 0 hpre e h1.1 hne f hf
  · intro kfields fs fe
    exact resolveFields_snd c kfields fs fe
  · intro cf cfe e fev hne hp
    simp only [processEvent, if_neg hne, hp]
    rw [resolveFields_snd]

/-- Witness for `c1_amended` at the concrete kernel `cC1w` and catalog
`[eC1w]`: the preconditions hold and the conclusion follows. -/
theorem c1_amended_witness :
    (∀ e ∈ CreateFiltered cC1w [eC1w], ∀ f ∈ e.fields,
        f.ftrace_offset + f.ftrace_size ≤ e.size) ∧
    (∀ kfields fs fe,
        (resolveFields cC1w kfields fs fe).2 =
          matchedExtent cC1w kfields fs fe) ∧
    (∀ cf cfe e fev,
        cC1w.readEventFormat e.group e.name ≠ "" →
        cC1w.parseFtraceEvent (cC1w.readEventFormat e.group e.name) =
          some fev →
        (processEvent cC1w cf cfe e).1.size =
          max (matchedExtent cC1w fev.fields e.fields 0)
            (processEvent cC1w cf cfe e).2.2) := by
  apply c1_amended cC1w [eC1w]
  · decide
  · intro s fev h kf hkf
    simp only [cC1w] at h
    by_cases hs : s = "fmt_w"
    · rw [if_pos hs] at h
      cases h
      simp only [List.mem_singleton] at hkf
      subst hkf
      decide
    · rw [if_neg hs] at h
      exact absurd h (by simp)

/-- Claim C6, as stated, is false on the code: the common fields are
captured from the first parsed event whose common-field list is
*non-empty*, not from the first parsed event outright.  For kernel
`cDemo`, catalog event `alpha` parses first with an empty common-field
list, yet the table's common fields come from `beta`, parsed later. -/
theorem c6_counterexample :
    cDemo.readEventFormat eDemoA.group eDemoA.name = "fmt_alpha" ∧
    cDemo.parseFtraceEvent "fmt_alpha" =
      some { id := 7,
             fields := [{ type_and_name := "f1", offset := 10, size := 4 }],
             common_fields := [] } ∧
    (Create cDemo [eDemoA, eDemoB]).common_fields_ =
      [{ ftrace_offset := 0, ftrace_size := 8 }] := by
  decide

/-- Claim C6 amended: the table's global common fields (and their
extent) are captured exactly once, from the first catalog event whose
descriptor parses successfully *with a non-empty common-field list*;
parsed events whose descriptors report no common fields capture nothing,
and once a non-empty list has been captured, later events' common fields
are never examined. -/
theorem c6_amended (c : Collaborators) (events : List Event) :
    (Create c events).common_fields_ = specCommonFields c events ∧
    CreateCommonFields c events = specCommonFields c events ∧
    CreateCommonExtent c events =
      commonExtentOf (specCommonFields c events) := by
  refine ⟨(processEvents_common c events).1, (processEvents_common c events).1,
    (processEvents_common c events).2⟩

/-- Claim C7: for each declared field the builder takes the *first*
kernel field, in kernel-declared order, whose extracted name is exactly
string-equal to the declared `ftrace_name` (`List.find?` with the
`nameMatches` predicate — duplicates beyond the first are never reached),
copies its offset and size, and keeps the field exactly when the
strategy resolver supports the type pair. -/
theorem c7_first_match (c : Collaborators) (kfields : List FtraceEventField)
    (fs : List Field) (fe : Nat) (f : Field) :
    (resolveFields c kfields fs fe).1 = specResolvedFields c kfields fs ∧
    scanFields c f kfields =
      (kfields.find? (nameMatches c f)).map (fun kf =>
        ({ f with ftrace_offset := kf.offset % 65536,
                  ftrace_size := kf.size % 65536 },
         c.setTranslationStrategy f.ftrace_type f.proto_field_type)) :=
  ⟨resolveFields_fst c kfields fs fe, scanFields_eq_find c f kfields⟩

/-- Claim C3: the post-pass filter keeps only events with non-zero
`proto_field_id` and non-zero `ftrace_event_id`, and consequently no
event with a zero id of either kind is reachable through the by-id or
the by-name index. -/
theorem c3_nonzero_ids (c : Collaborators) (events : List Event) (i : Nat)
    (n : String) (e : Event) :
    (∀ ev ∈ CreateFiltered c events,
       ev.proto_field_id ≠ 0 ∧ ev.ftrace_event_id ≠ 0) ∧
    (lookupById (Create c events) i = some e →
       e.proto_field_id ≠ 0 ∧ e.ftrace_event_id ≠ 0) ∧
    (lookupByName (Create c events) n = some e →
       e.proto_field_id ≠ 0 ∧ e.ftrace_event_id ≠ 0) := by
  refine ⟨fun ev hev => mem_CreateFiltered_ne_zero c events ev hev, ?_, ?_⟩
  · intro h
    exact mem_CreateFiltered_ne_zero c events e (lookupById_some c events i e h).1
  · intro h
    exact mem_CreateFiltered_ne_zero c events e (lookupByName_some c events n e h).1

/-- Witness for `c3_nonzero_ids` on the table built from `cDemo`:
the events reachable at id 7 and under name `beta` have non-zero ids. -/
theorem c3_nonzero_ids_witness :
    (eDemoARes.proto_field_id ≠ 0 ∧ eDemoARes.ftrace_event_id ≠ 0) ∧
    (eDemoBRes.proto_field_id ≠ 0 ∧ eDemoBRes.ftrace_event_id ≠ 0) :=
  ⟨(c3_nonzero_ids cDemo [eDemoA, eDemoB] 7 "beta" eDemoARes).2.1 (by decide),
   (c3_nonzero_ids cDemo [eDemoA, eDemoB] 7 "beta" eDemoBRes).2.2 (by decide)⟩

/-- Claim C8: the dense by-id vector has length
`(max surviving kernel id) + 1`; any non-empty `lookupById i` returns an
event whose `ftrace_event_id` is exactly `i`; every surviving event's id
indexes a slot holding an event with that id; and slots covered by no
surviving id hold the default-constructed `Event`. -/
theorem c8_dense_index (c : Collaborators) (events : List Event) :
    (Create c events).events_.length =
      largestId (CreateFiltered c events) + 1 ∧
    (∀ i e, lookupById (Create c events) i = some e →
       e.ftrace_event_id = i) ∧
    (∀ ev ∈ CreateFiltered c events,
       ((Create c events).events_[ev.ftrace_event_id]?).map
           Event.ftrace_event_id = some ev.ftrace_event_id) ∧
    (∀ i, i < (Create c events).events_.length →
       (∀ ev ∈ CreateFiltered c events, ev.ftrace_event_id ≠ i) →
       (Create c events).events_[i]? = some ({} : Event)) := by
  refine ⟨?_, ?_, ?_, ?_⟩
  · rw [Create_events_eq, BuildEventsVector_length]
  · intro i e h
    exact (lookupById_some c events i e h).2.1
  · intro ev hev
    obtain ⟨e', hslot, _, hid', _⟩ :=
      slot_of_mem_id c events ev.ftrace_event_id ev hev rfl
    rw [hslot, Option.map_some', hid']
  · intro i hlen hall
    rw [lookupById_unused c events i hall, if_pos]
    rw [Create_events_eq, BuildEventsVector_length] at hlen
    exact hlen

/-- Witness for `c8_dense_index` on the table built from `cDemo`:
length, id-coherence at id 7, slot occupancy for the surviving `beta`,
and the default-valued unused slot 2. -/
theorem c8_dense_index_witness :
    (Create cDemo [eDemoA, eDemoB]).events_.length =
      largestId (CreateFiltered cDemo [eDemoA, eDemoB]) + 1 ∧
    eDemoARes.ftrace_event_id = 7 ∧
    ((Create cDemo [eDemoA, eDemoB]).events_[eDemoBRes.ftrace_event_id]?).map
        Event.ftrace_event_id = some eDemoBRes.ftrace_event_id ∧
    (Create cDemo [eDemoA, eDemoB]).events_[2]? = some ({} : Event) := by
  have h := c8_dense_index cDemo [eDemoA, eDemoB]
  exact ⟨h.1, h.2.1 7 eDemoARes (by decide),
    h.2.2.1 eDemoBRes (by decide), h.2.2.2 2 (by decide) (by decide)⟩

/-- Claim C9: construction is deterministic — two collaborator records
whose four functions agree produce tables with identical dense by-id
contents and identical name-index contents on any catalog. -/
theorem c9_deterministic (c₁ c₂ : Collaborators) (events : List Event)
    (h1 : c₁.readEventFormat = c₂.readEventFormat)
    (h2 : c₁.parseFtraceEvent = c₂.parseFtraceEvent)
    (h3 : c₁.getNameFromTypeAndName = c₂.getNameFromTypeAndName)
    (h4 : c₁.setTranslationStrategy = c₂.setTranslationStrategy) :
    (Create c₁ events).events_ = (Create c₂ events).events_ ∧
    (Create c₁ events).name_to_event_ = (Create c₂ events).name_to_event_ := by
  obtain ⟨r1, p1, g1, s1⟩ := c₁
  obtain ⟨r2, p2, g2, s2⟩ := c₂
  simp only at h1 h2 h3 h4
  subst h1
  subst h2
  subst h3
  subst h4
  exact ⟨rfl, rfl⟩

/-- Witness for `c9_deterministic`: two runs over `cDemo` with the same
catalog agree. -/
theorem c9_deterministic_witness :
    (Create cDemo [eDemoA, eDemoB]).events_ =
      (Create cDemo [eDemoA, eDemoB]).events_ ∧
    (Create cDemo [eDemoA, eDemoB]).name_to_event_ =
      (Create cDemo [eDemoA, eDemoB]).name_to_event_ :=
  c9_deterministic cDemo cDemo [eDemoA, eDemoB] rfl rfl rfl rfl

theorem processEvent_success_fst (c : Collaborators) (cf : List Field)
    (cfe : Nat) (e : Event) (fev : FtraceEvent)
    (hne : c.readEventFormat e.group e.name ≠ "")
    (hp : c.parseFtraceEvent (c.readEventFormat e.group e.name) = some fev) :
    (processEvent c cf cfe e).1.name = e.name ∧
    (processEvent c cf cfe e).1.group = e.group ∧
    (processEvent c cf cfe e).1.proto_field_id = e.proto_field_id ∧
    (processEvent c cf cfe e).1.ftrace_event_id = fev.id ∧
    (processEvent c cf cfe e).1.fields =
      specResolvedFields c fev.fields e.fields := by
  simp only [processEvent, if_neg hne, hp]
  exact ⟨trivial, trivial, trivial, trivial,
    resolveFields_fst c fev.fields e.fields 0⟩

/-- Claim C4: when the format source returns empty text, or the parser
rejects the text, the event is dropped entirely — assuming the DCHECKed
catalog precondition that its `ftrace_event_id` starts at zero, the whole
resulting table is identical to the one built without that catalog entry,
so the event reaches no index and every other event is unaffected. -/
theorem c4_unavailable_dropped (c : Collaborators) (pre post : List Event)
    (e : Event)
    (hskip : c.readEventFormat e.group e.name = "" ∨
      c.parseFtraceEvent (c.readEventFormat e.group e.name) = none)
    (hid : e.ftrace_event_id = 0) :
    Create c (pre ++ e :: post) = Create c (pre ++ post) := by
  have hu : (!(unusable e)) = false := by
    simp [unusable, hid]
  unfold Create CreateFiltered CreateCommonFields
  rw [processEvents_append, processEvents_append]
  rw [processEvents, processEvent_skip c _ _ e hskip]
  simp [List.filter_append, List.filter_cons, hu]

/-- Witness for `c4_unavailable_dropped`: dropping the unknown event
`sched/gamma` from the catalog leaves the table unchanged. -/
theorem c4_unavailable_dropped_witness :
    Create cDemo [eDemoA, eDemoC, eDemoB] = Create cDemo [eDemoA, eDemoB] :=
  c4_unavailable_dropped cDemo [eDemoA] [eDemoB] eDemoC
    (Or.inl (by decide)) (by decide)

/-- Claim C5: dropping fields never drops the owning event.  Whenever an
event's format text parses (to a descriptor with the spec-assumed
non-zero id, and with the DCHECKed non-zero `proto_field_id`), the event
survives into the final table with its name and group intact, its id
taken from the descriptor, and its field list reduced to exactly the
name-matched, strategy-supported fields — both drop causes (no-match,
unsupported pair) are reflected identically as mere absence from that
list, even when the list ends up empty. -/
theorem c5_field_drop_keeps_event (c : Collaborators) (pre post : List Event)
    (e : Event) (fev : FtraceEvent)
    (hne : c.readEventFormat e.group e.name ≠ "")
    (hp : c.parseFtraceEvent (c.readEventFormat e.group e.name) = some fev)
    (hid : fev.id ≠ 0) (hproto : e.proto_field_id ≠ 0) :
    ∃ e', e' ∈ CreateFiltered c (pre ++ e :: post) ∧
      e'.name = e.name ∧ e'.group = e.group ∧
      e'.ftrace_event_id = fev.id ∧
      e'.fields = specResolvedFields c fev.fields e.fields := by
  have hkey := processEvent_success_fst c (processEvents c pre [] 0).2.1
    (processEvents c pre [] 0).2.2 e fev hne hp
  refine ⟨(processEvent c (processEvents c pre [] 0).2.1
      (processEvents c pre [] 0).2.2 e).1,
    ?_, hkey.1, hkey.2.1, hkey.2.2.2.1, hkey.2.2.2.2⟩
  unfold CreateFiltered
  rw [processEvents_append, processEvents]
  refine List.mem_filter.mpr ⟨?_, ?_⟩
  · exact List.mem_append_right _ (List.mem_cons_self _ _)
  · simp only [Bool.not_eq_true', unusable, Bool.or_eq_false_iff,
      beq_eq_false_iff_ne]
    rw [hkey.2.2.1, hkey.2.2.2.1]
    exact ⟨hproto, hid⟩

/-- Witness for `c5_field_drop_keeps_event`: the event `sched/five`, both
of whose declared fields are dropped (one unmatched, one with an
unsupported conversion), survives with an empty field list. -/
theorem c5_field_drop_keeps_event_witness :
    ∃ e', e' ∈ CreateFiltered cC5 ([] ++ eC5 :: []) ∧
      e'.name = eC5.name ∧ e'.group = eC5.group ∧
      e'.ftrace_event_id = fevC5.id ∧
      e'.fields = specResolvedFields cC5 fevC5.fields eC5.fields :=
  c5_field_drop_keeps_event cC5 [] [] eC5 fevC5
    (by decide) (by decide) (by decide) (by decide)

/-- Claim C2, as stated, is false on the code: with two catalog events
that share a name (`dup`), the `std::map` name index keeps only the
later entry, so the event at id 3 is reachable by id yet looking up its
name returns a *different* entry — the "vice versa" direction fails. -/
theorem c2_counterexample :
    lookupById (Create cC2x [eC2xa, eC2xb]) 3 =
      some { name := "dup", group := "g1", fields := [],
             ftrace_event_id := 3, proto_field_id := 1, size := 0 } ∧
    lookupByName (Create cC2x [eC2xa, eC2xb]) "dup" =
      some { name := "dup", group := "g2", fields := [],
             ftrace_event_id := 7, proto_field_id := 2, size := 0 } ∧
    lookupByName (Create cC2x [eC2xa, eC2xb]) "dup" ≠
      lookupById (Create cC2x [eC2xa, eC2xb]) 3 := by
  decide

/-- Claim C2 amended: the name→id direction always holds — every event
reachable by name sits in the slot indexed by its own `ftrace_event_id`,
which `lookupById` returns identically; and the stored index always
equals the slot occupant's id.  The converse (every event reachable by
id is returned identically by looking up its name) holds provided the
surviving events have pairwise distinct names (the `std::map` keyed by
name keeps only the last same-named event). -/
theorem c2_amended (c : Collaborators) (events : List Event) :
    (∀ n e, lookupByName (Create c events) n = some e →
        lookupById (Create c events) e.ftrace_event_id = some e) ∧
    (∀ n i, mapLookup (Create c events).name_to_event_ n = some i →
        ((Create c events).events_[i]?).map Event.ftrace_event_id = some i) ∧
    ((CreateFiltered c events).Pairwise (fun a b => a.name ≠ b.name) →
      ∀ i e, lookupById (Create c events) i = some e →
        lookupByName (Create c events) e.name = some e) := by
  refine ⟨?_, ?_, ?_⟩
  · intro n e h
    obtain ⟨hmem, hnz, hmap, hslot⟩ := lookupByName_some c events n e h
    unfold lookupById
    rw [hslot]
    simp [hnz]
  · intro n i h
    rw [Create_nameMap_eq] at h
    obtain ⟨ev, hmem, hname, hid⟩ := mapLookup_buildNameMap_some _ n i h
    obtain ⟨e', hslot, _, hid', _⟩ := slot_of_mem_id c events i ev hmem hid
    rw [hslot, Option.map_some', hid']
  · intro hpw i e h
    obtain ⟨hmem, hid, hfindid, hslot⟩ := lookupById_some c events i e h
    unfold lookupByName
    rw [Create_nameMap_eq, buildNameMap_lookup]
    cases hfn : (CreateFiltered c events).reverse.find?
        (fun x => x.name == e.name) with
    | none =>
      exfalso
      rw [List.find?_eq_none] at hfn
      exact hfn e (List.mem_reverse.mpr hmem) (by simp)
    | some ev =>
      have hevmem : ev ∈ CreateFiltered c events :=
        List.mem_reverse.mp (List.mem_of_find?_eq_some hfn)
      have hevname : ev.name = e.name := by
        simpa using List.find?_some hfn
      have heq : ev = e := pairwise_name_inj _ hpw ev hevmem e hmem hevname
      subst heq
      show (Create c events).events_[ev.ftrace_event_id]? = some ev
      rw [hid]
      exact hslot

/-- Witness for `c2_amended` on the table built from `cDemo` (whose
surviving events have distinct names): both directions and the shared
slot, at concrete entries. -/
theorem c2_amended_witness :
    lookupById (Create cDemo [eDemoA, eDemoB]) eDemoBRes.ftrace_event_id =
      some eDemoBRes ∧
    ((Create cDemo [eDemoA, eDemoB]).events_[7]?).map Event.ftrace_event_id =
      some 7 ∧
    lookupByName (Create cDemo [eDemoA, eDemoB]) eDemoARes.name =
      some eDemoARes := by
  have h := c2_amended cDemo [eDemoA, eDemoB]
  exact ⟨h.1 "beta" eDemoBRes (by decide), h.2.1 "alpha" 7 (by decide),
    h.2.2 (by decide) 7 eDemoARes (by decide)⟩

/-- Claim C10: when two surviving catalog events resolve to the same
kernel id, the dense slot for that id holds only the later one in
catalog order, the name index maps both names to that single shared slot
(`lookupByName` of the earlier name returns the later event), and the
by-id lookup at that id returns the later event. -/
theorem c10_duplicate_id_overwrite (c : Collaborators) (events : List Event)
    (pre mid post : List Event) (a b : Event)
    (hl : CreateFiltered c events = pre ++ a :: (mid ++ b :: post))
    (hid : a.ftrace_event_id = b.ftrace_event_id)
    (hidpost : ∀ x ∈ post, x.ftrace_event_id ≠ a.ftrace_event_id)
    (hnamea : ∀ x ∈ mid ++ post, x.name ≠ a.name)
    (hnameb : ∀ x ∈ post, x.name ≠ b.name)
    (hab : b.name ≠ a.name) :
    lookupById (Create c events) a.ftrace_event_id = some b ∧
    mapLookup (Create c events).name_to_event_ a.name =
      some a.ftrace_event_id ∧
    mapLookup (Create c events).name_to_event_ b.name =
      some b.ftrace_event_id ∧
    lookupByName (Create c events) a.name = some b := by
  have hbmem : b ∈ CreateFiltered c events := by
    rw [hl]; simp
  have hbnz : b.ftrace_event_id ≠ 0 :=
    (mem_CreateFiltered_ne_zero c events b hbmem).2
  have hrev : (CreateFiltered c events).reverse =
      post.reverse ++ ([b] ++ (mid.reverse ++ ([a] ++ pre.reverse))) := by
    rw [hl]; simp
  have hfid : (CreateFiltered c events).reverse.find?
      (fun x => x.ftrace_event_id == a.ftrace_event_id) = some b := by
    rw [hrev, List.find?_append]
    have h1 : post.reverse.find?
        (fun x => x.ftrace_event_id == a.ftrace_event_id) = none := by
      rw [List.find?_eq_none]
      intro x hx
      simpa using hidpost x (List.mem_reverse.mp hx)
    rw [h1, Option.none_or, List.find?_append]
    have h2 : [b].find?
        (fun x => x.ftrace_event_id == a.ftrace_event_id) = some b := by
      simp [List.find?, beq_iff_eq.mpr hid.symm]
    rw [h2]
    simp
  have hfna : (CreateFiltered c events).reverse.find?
      (fun x => x.name == a.name) = some a := by
    rw [hrev, List.find?_append]
    have h1 : post.reverse.find? (fun x => x.name == a.name) = none := by
      rw [List.find?_eq_none]
      intro x hx
      simpa using hnamea x
        (List.mem_append_right mid (List.mem_reverse.mp hx))
    rw [h1, Option.none_or, List.find?_append]
    have h2 : [b].find? (fun x => x.name == a.name) = none := by
      simp [List.find?, beq_eq_false_iff_ne.mpr hab]
    rw [h2, Option.none_or, List.find?_append]
    have h3 : mid.reverse.find? (fun x => x.name == a.name) = none := by
      rw [List.find?_eq_none]
      intro x hx
      simpa using hnamea x
        (List.mem_append_left post (List.mem_reverse.mp hx))
    rw [h3, Option.none_or, List.find?_append]
    have h4 : [a].find? (fun x => x.name == a.name) = some a := by
      simp [List.find?]
    rw [h4]
    simp
  have hfnb : (CreateFiltered c events).reverse.find?
      (fun x => x.name == b.name) = some b := by
    rw [hrev, List.find?_append]
    have h1 : post.reverse.find? (fun x => x.name == b.name) = none := by
      rw [List.find?_eq_none]
      intro x hx
      simpa using hnameb x (List.mem_reverse.mp hx)
    rw [h1, Option.none_or, List.find?_append]
    have h2 : [b].find? (fun x => x.name == b.name) = some b := by
      simp [List.find?]
    rw [h2]
    simp
  refine ⟨?_, ?_, ?_, ?_⟩
  · unfold lookupById
    rw [Create_events_eq, BuildEventsVector_getElem, hfid]
    simp [hbnz]
  · rw [Create_nameMap_eq, buildNameMap_lookup, hfna]
  · rw [Create_nameMap_eq, buildNameMap_lookup, hfnb]
  · unfold lookupByName
    rw [Create_nameMap_eq, buildNameMap_lookup, hfna]
    show (Create c events).events_[a.ftrace_event_id]? = some b
    rw [Create_events_eq, BuildEventsVector_getElem, hfid]

/-- Witness for `c10_duplicate_id_overwrite`: `grp/x` and `grp/y` both
resolve to kernel id 5; slot 5 and the name `x` both yield the later
event `y`. -/
theorem c10_duplicate_id_overwrite_witness :
    lookupById (Create cC10 [eC10x, eC10y]) eC10xRes.ftrace_event_id =
      some eC10yRes ∧
    mapLookup (Create cC10 [eC10x, eC10y]).name_to_event_ eC10xRes.name =
      some eC10xRes.ftrace_event_id ∧
    mapLookup (Create cC10 [eC10x, eC10y]).name_to_event_ eC10yRes.name =
      some eC10yRes.ftrace_event_id ∧
    lookupByName (Create cC10 [eC10x, eC10y]) eC10xRes.name =
      some eC10yRes :=
  c10_duplicate_id_overwrite cC10 [eC10x, eC10y] [] [] [] eC10xRes eC10yRes
    (by decide) (by decide) (by decide) (by decide) (by decide) (by decide)

end Perfetto
